import Mathlib

/-!
Verification of the Monte Carlo option-pricing notebook
(`Options_Pricing_Variance_Reduction.ipynb`) against its specification.

The numerical code works on numpy arrays of floats; here it is embedded
shallowly over the real numbers, a numpy array becoming a `List ℝ`.  The
seeded random generator `rng` is modelled by passing the realized vector of
standard-normal draws explicitly: a call `rng.standard_normal(size=n)`
becomes a list `draws` of length `n`.  Division follows Lean's convention
`x / 0 = 0`; places where numpy would instead produce `inf`/`NaN` are noted
at the theorems concerned.
-/

namespace OptionPricing

open Real MeasureTheory Set

/-! ### Sample statistics (embeddings of the numpy reductions) -/

/-- Embedding of `np.mean(l)`: the arithmetic mean of a list. -/
noncomputable def mean (l : List ℝ) : ℝ := l.sum / l.length

/-- Embedding of `np.var(l, ddof=1)`: the unbiased sample variance,
sum of squared deviations from the mean divided by `n - 1`. -/
noncomputable def svar (l : List ℝ) : ℝ :=
  (l.map (fun x => (x - mean l) ^ 2)).sum / ((l.length : ℝ) - 1)

/-- Embedding of `np.std(l, ddof=1)`: the unbiased sample standard
deviation, square root of `svar`. -/
noncomputable def sstd (l : List ℝ) : ℝ := Real.sqrt (svar l)

/-- Embedding of `np.cov(xs, ys, ddof=1)[0, 1]`: the unbiased sample
covariance of two equal-length lists, paired by index. -/
noncomputable def scov (xs ys : List ℝ) : ℝ :=
  (List.zipWith (fun x y => (x - mean xs) * (y - mean ys)) xs ys).sum /
    ((xs.length : ℝ) - 1)

/-! ### The standard-normal quantile

Modelled from the spec: the code calls `scipy.stats.norm.ppf`, an external
library function not part of this repository; per the spec it is the
standard-normal quantile (inverse CDF).  We model the CDF by its defining
integral and the quantile as the infimum of the upper level set. -/

/-- Modelled from the spec: the standard-normal cumulative distribution
function `Φ`, realizing `scipy.stats.norm.cdf` for `loc=0, scale=1`. -/
noncomputable def normCdf (x : ℝ) : ℝ :=
  (∫ t in Set.Iic x, Real.exp (-t ^ 2 / 2)) / Real.sqrt (2 * Real.pi)

/-- Modelled from the spec: the standard-normal quantile function,
realizing `scipy.stats.norm.ppf` (the generalized inverse of `normCdf`). -/
noncomputable def normPpf (p : ℝ) : ℝ := sInf {x : ℝ | p ≤ normCdf x}

/-! ### The notebook's functions -/

/-- Embedding of `terminal_stockprice(rng, S0, T, r, sigma, samplesize)`:
maps each standard-normal draw `x` to
`S0 * exp((r - 0.5*sigma^2)*T + sigma*sqrt(T)*x)`.  The `samplesize` draws
produced by `rng.standard_normal` are the explicit list `draws`. -/
noncomputable def terminal_stockprice (draws : List ℝ) (S0 T r sigma : ℝ) :
    List ℝ :=
  draws.map (fun x =>
    S0 * Real.exp ((r - 0.5 * sigma ^ 2) * T + sigma * Real.sqrt T * x))

/-- Embedding of `bs_call_mc(rng, S0, K, T, r, sigma, samplesize, myepsilon)`:
plain Monte Carlo estimation, returning
`(price, standarddev_mcest, ci_left, ci_right)`.  `samplesize` is
`draws.length`. -/
noncomputable def bs_call_mc (draws : List ℝ) (S0 K T r sigma myepsilon : ℝ) :
    ℝ × ℝ × ℝ × ℝ :=
  let mystockprice := terminal_stockprice draws S0 T r sigma
  let payoffs := mystockprice.map (fun s => max (s - K) 0)
  let discountedpayoffs := payoffs.map (fun p => Real.exp (-r * T) * p)
  let price := mean discountedpayoffs
  let standarddev_rv := sstd discountedpayoffs
  let standarddev_mcest := standarddev_rv / Real.sqrt (draws.length : ℝ)
  let aepsilon := normPpf (1.0 - myepsilon * 0.5)
  (price, standarddev_mcest,
    price - aepsilon * standarddev_mcest,
    price + aepsilon * standarddev_mcest)

/-- Embedding of `bs_call_cv(rng, S0, K, T, r, sigma, samplesize, myepsilon)`:
control-variate estimation, returning
`(price, standarddev_cvest, ci_left, ci_right, rhosquared)`. -/
noncomputable def bs_call_cv (draws : List ℝ) (S0 K T r sigma myepsilon : ℝ) :
    ℝ × ℝ × ℝ × ℝ × ℝ :=
  let mystockprice := terminal_stockprice draws S0 T r sigma
  let payoffs := mystockprice.map (fun s => max (s - K) 0)
  let discountedpayoffs := payoffs.map (fun p => Real.exp (-r * T) * p)
  let xs := mystockprice.map (fun s => Real.exp (-r * T) * s)
  let bstar := scov xs discountedpayoffs / svar xs
  let z := List.zipWith (fun y x => y - bstar * (x - S0)) discountedpayoffs xs
  let price := mean z
  let standarddev_rv := sstd z
  let standarddev_cvest := standarddev_rv / Real.sqrt (draws.length : ℝ)
  let aepsilon := normPpf (1.0 - myepsilon * 0.5)
  let tmpcov := scov xs discountedpayoffs
  let tmpvarx := svar xs
  let tmpvary := svar discountedpayoffs
  let rhosquared := tmpcov ^ 2 / (tmpvarx * tmpvary)
  (price, standarddev_cvest,
    price - aepsilon * standarddev_cvest,
    price + aepsilon * standarddev_cvest, rhosquared)

/-- Embedding of `terminal_stockprice_av(rng, S0, T, r, sigma, halfsamplesize)`:
antithetic sampling, producing `(stockprice1, stockprice2, allstockprices)`
from the draws and their negations.  `halfsamplesize` is `draws.length`. -/
noncomputable def terminal_stockprice_av (draws : List ℝ) (S0 T r sigma : ℝ) :
    List ℝ × List ℝ × List ℝ :=
  let mynormals1 := draws
  let mynormals2 := draws.map (fun x => -x)
  let stockprice1 := mynormals1.map (fun x =>
    S0 * Real.exp ((r - 0.5 * sigma ^ 2) * T + sigma * Real.sqrt T * x))
  let stockprice2 := mynormals2.map (fun x =>
    S0 * Real.exp ((r - 0.5 * sigma ^ 2) * T + sigma * Real.sqrt T * x))
  (stockprice1, stockprice2, stockprice1 ++ stockprice2)

/-- Embedding of `bs_call_av(rng, S0, K, T, r, sigma, halfsamplesize,
myepsilon)`: antithetic-variate estimation, returning
`(price, standarddev_avest, ci_left, ci_right, possiblereduction)`. -/
noncomputable def bs_call_av (draws : List ℝ) (S0 K T r sigma myepsilon : ℝ) :
    ℝ × ℝ × ℝ × ℝ × ℝ :=
  let mystockprices := terminal_stockprice_av draws S0 T r sigma
  let payoffs1 := mystockprices.1.map (fun s => max (s - K) 0)
  let payoffs2 := mystockprices.2.1.map (fun s => max (s - K) 0)
  let discpayoffs1 := payoffs1.map (fun p => Real.exp (-r * T) * p)
  let discpayoffs2 := payoffs2.map (fun p => Real.exp (-r * T) * p)
  let thecov := scov discpayoffs1 discpayoffs2
  let possiblereduction := thecov / (2 * (draws.length : ℝ))
  let discpayoffs := discpayoffs1 ++ discpayoffs2
  let price := mean discpayoffs
  let standarddev_rv := sstd discpayoffs
  let standarddev_avest := standarddev_rv / Real.sqrt (2 * (draws.length : ℝ))
  let aepsilon := normPpf (1.0 - myepsilon * 0.5)
  (price, standarddev_avest,
    price - aepsilon * standarddev_avest,
    price + aepsilon * standarddev_avest, possiblereduction)

/-- Embedding of the body of the sensitivity-sweep loop: for a fixed sample
of terminal prices and a strike `k`, the value `rho[i] =
np.corrcoef(xs, ys)[0, 1]`, the sample correlation between the discounted
stock control and the discounted payoff. -/
noncomputable def sweepRho (mystockprice : List ℝ) (r T k : ℝ) : ℝ :=
  let payoffs := mystockprice.map (fun s => max (s - k) 0)
  let discountedpayoffs := payoffs.map (fun p => Real.exp (-r * T) * p)
  let ys := discountedpayoffs
  let xs := mystockprice.map (fun s => Real.exp (-r * T) * s)
  scov xs ys / (sstd xs * sstd ys)

/-- Embedding of `rhosquared[i] = rho[i] ** 2` in the sensitivity-sweep
loop. -/
noncomputable def sweepRhoSquared (mystockprice : List ℝ) (r T k : ℝ) : ℝ :=
  (sweepRho mystockprice r T k) ^ 2

/-! ### Spec-side definitions

These definitions follow the wording of the specification and of the claims,
to be compared against the code embeddings above. -/

/-- Spec 4.3, plain variant: `S_i = S0 * exp((r - sigma^2/2)*T +
sigma*sqrt(T)*x_i)`. -/
noncomputable def specTerminalPrice (S0 T r sigma x : ℝ) : ℝ :=
  S0 * Real.exp ((r - sigma ^ 2 / 2) * T + sigma * Real.sqrt T * x)

/-- Spec 4.4: the discounted payoff `exp(-r*T) * max(S - K, 0)` of a
terminal price `S`. -/
noncomputable def specDiscountedPayoff (K r T S : ℝ) : ℝ :=
  Real.exp (-(r * T)) * max (S - K) 0

/-- Spec 4.6: the discounted stock control `X_i = exp(-r*T) * S_i`. -/
noncomputable def specControl (r T S : ℝ) : ℝ := Real.exp (-(r * T)) * S

/-- Spec 4.5: the plain Monte Carlo statistics of a discounted payoff set of
size `n`: `price = mean`, `stderr = sample_stdev(unbiased)/sqrt(n)`, and the
two-sided confidence bounds `price ± z_{1-eps/2} * stderr`. -/
noncomputable def specPlainStats (Y : List ℝ) (n : ℕ) (eps : ℝ) :
    ℝ × ℝ × ℝ × ℝ :=
  let price := mean Y
  let stderr := sstd Y / Real.sqrt (n : ℝ)
  let z := normPpf (1 - eps / 2)
  (price, stderr, price - z * stderr, price + z * stderr)

/-- Spec 4.6: the optimal control-variate coefficient
`b* = Cov(X, Y) / Var(X)` (unbiased sample versions). -/
noncomputable def specBstar (X Y : List ℝ) : ℝ := scov X Y / svar X

/-- Spec 4.6: the adjusted observations `Z_i = Y_i - b* * (X_i - S0)`. -/
noncomputable def specAdjusted (X Y : List ℝ) (S0 : ℝ) : List ℝ :=
  List.zipWith (fun y x => y - specBstar X Y * (x - S0)) Y X

/-! ### Helper lemmas on sums over lists -/

lemma sum_map_eq_range (l : List ℝ) (f : ℝ → ℝ) :
    (l.map f).sum = ∑ i in Finset.range l.length, f (l.getD i 0) := by
  induction l with
  | nil => simp
  | cons x t ih =>
      simp only [List.map_cons, List.sum_cons, List.length_cons,
        Finset.sum_range_succ']
      simp [ih, add_comm]

lemma sum_zipWith_eq_range (f : ℝ → ℝ → ℝ) (xs ys : List ℝ)
    (h : xs.length = ys.length) :
    (List.zipWith f xs ys).sum =
      ∑ i in Finset.range xs.length, f (xs.getD i 0) (ys.getD i 0) := by
  induction xs generalizing ys with
  | nil => simp
  | cons x t ih =>
      cases ys with
      | nil => simp at h
      | cons y u =>
          simp only [List.length_cons, Nat.succ_inj] at h
          simp only [List.zipWith_cons_cons, List.sum_cons, List.length_cons,
            Finset.sum_range_succ']
          simp [ih u h, add_comm]

/-- Cauchy-Schwarz for the pointwise product of two equal-length lists. -/
lemma sum_zipWith_mul_sq_le (a b : List ℝ) (h : a.length = b.length) :
    ((List.zipWith (fun x y => x * y) a b).sum) ^ 2 ≤
      (a.map (fun x => x ^ 2)).sum * (b.map (fun x => x ^ 2)).sum := by
  rw [sum_zipWith_eq_range _ _ _ h, sum_map_eq_range, sum_map_eq_range, ← h]
  exact Finset.sum_mul_sq_le_sq_mul_sq _ _ _

lemma svar_nonneg (l : List ℝ) : 0 ≤ svar l := by
  cases l with
  | nil => simp [svar]
  | cons x t =>
      apply div_nonneg
      · exact List.sum_nonneg (by
          intro y hy
          obtain ⟨z, _, rfl⟩ := List.mem_map.mp hy
          positivity)
      · simp

/-- Cauchy-Schwarz for the unbiased sample covariance: the squared sample
covariance is at most the product of the sample variances. -/
lemma scov_sq_le_svar_mul_svar (xs ys : List ℝ) (h : xs.length = ys.length) :
    scov xs ys ^ 2 ≤ svar xs * svar ys := by
  set mx := mean xs with hmx
  set my := mean ys with hmy
  have hzip : List.zipWith (fun x y => (x - mx) * (y - my)) xs ys =
      List.zipWith (fun x y => x * y) (xs.map (fun x => x - mx))
        (ys.map (fun y => y - my)) := by
    rw [List.zipWith_map]
  have hlen : (xs.map (fun x => x - mx)).length =
      (ys.map (fun y => y - my)).length := by simpa using h
  have hcs := sum_zipWith_mul_sq_le _ _ hlen
  have hxx : ((xs.map (fun x => x - mx)).map (fun x => x ^ 2)).sum =
      (xs.map (fun x => (x - mx) ^ 2)).sum := by rw [List.map_map]; rfl
  have hyy : ((ys.map (fun y => y - my)).map (fun x => x ^ 2)).sum =
      (ys.map (fun y => (y - my) ^ 2)).sum := by rw [List.map_map]; rfl
  rw [hxx, hyy] at hcs
  rw [scov, svar, svar, ← hmx, ← hmy, hzip]
  rcases eq_or_ne ((xs.length : ℝ) - 1) 0 with hd | hd
  · rw [hd]
    simp
  · have hd2 : 0 < ((xs.length : ℝ) - 1) ^ 2 := by positivity
    rw [div_pow, div_mul_div_comm, ← h, ← pow_two]
    exact (div_le_div_iff_of_pos_right hd2).mpr hcs

/-! ### Facts about the standard-normal quantile -/

lemma gauss_integrable : Integrable (fun t : ℝ => Real.exp (-t ^ 2 / 2)) := by
  have h : (fun t : ℝ => Real.exp (-t ^ 2 / 2)) =
      fun t : ℝ => Real.exp (-(1 / 2 : ℝ) * t ^ 2) := by
    funext t; ring_nf
  rw [h]
  exact integrable_exp_neg_mul_sq (by norm_num)

lemma gauss_total :
    (∫ t : ℝ, Real.exp (-t ^ 2 / 2)) = Real.sqrt (2 * Real.pi) := by
  have h : (fun t : ℝ => Real.exp (-t ^ 2 / 2)) =
      fun t : ℝ => Real.exp (-(1 / 2 : ℝ) * t ^ 2) := by
    funext t; ring_nf
  rw [h, integral_gaussian]
  rw [show Real.pi / (1 / 2) = 2 * Real.pi by ring]

lemma gauss_half :
    (∫ t in Set.Iic (0 : ℝ), Real.exp (-t ^ 2 / 2)) =
      Real.sqrt (2 * Real.pi) / 2 := by
  have heven : (fun t : ℝ => Real.exp (-(-t) ^ 2 / 2)) =
      fun t : ℝ => Real.exp (-t ^ 2 / 2) := by
    funext t; ring_nf
  have h1 : (∫ t in Set.Iic (0 : ℝ), Real.exp (-t ^ 2 / 2)) =
      ∫ t in Set.Ioi (0 : ℝ), Real.exp (-t ^ 2 / 2) := by
    have := integral_comp_neg_Iic (0 : ℝ) (fun t => Real.exp (-t ^ 2 / 2))
    rw [neg_zero] at this
    rw [← this]
    exact congrArg (fun g => ∫ t in Set.Iic (0 : ℝ), g t) heven.symm
  have h2 := integral_add_compl (measurableSet_Iic (a := (0 : ℝ)))
    gauss_integrable
  rw [Set.compl_Iic, gauss_total, h1] at h2
  linarith [h2]

lemma normCdf_zero : normCdf 0 = 1 / 2 := by
  have hs : (0 : ℝ) < Real.sqrt (2 * Real.pi) :=
    Real.sqrt_pos.mpr (by positivity)
  rw [normCdf, gauss_half]
  field_simp
  ring

lemma normCdf_mono {x y : ℝ} (hxy : x ≤ y) : normCdf x ≤ normCdf y := by
  have hs : (0 : ℝ) < Real.sqrt (2 * Real.pi) :=
    Real.sqrt_pos.mpr (by positivity)
  have key : (∫ t in Set.Iic x, Real.exp (-t ^ 2 / 2)) ≤
      ∫ t in Set.Iic y, Real.exp (-t ^ 2 / 2) := by
    apply setIntegral_mono_set gauss_integrable.integrableOn
    · exact ae_of_all _ fun t => (Real.exp_pos _).le
    · exact HasSubset.Subset.eventuallyLE (Set.Iic_subset_Iic.mpr hxy)
  rw [normCdf, normCdf]
  exact div_le_div_of_nonneg_right key hs.le

/-- The standard-normal quantile at a level above one half is nonnegative. -/
lemma normPpf_nonneg {p : ℝ} (hp : 1 / 2 < p) : 0 ≤ normPpf p := by
  apply Real.sInf_nonneg
  intro x hx
  by_contra hneg
  push_neg at hneg
  have h1 : normCdf x ≤ normCdf 0 := normCdf_mono hneg.le
  rw [normCdf_zero] at h1
  have h2 : p ≤ normCdf x := hx
  linarith

/-! ### Bridging lemmas between code-side and spec-side expressions -/

lemma terminal_eq_spec (draws : List ℝ) (S0 T r sigma : ℝ) :
    terminal_stockprice draws S0 T r sigma =
      draws.map (fun x => specTerminalPrice S0 T r sigma x) := by
  unfold terminal_stockprice specTerminalPrice
  congr 1
  funext x
  have h : (r - 0.5 * sigma ^ 2) * T + sigma * Real.sqrt T * x =
      (r - sigma ^ 2 / 2) * T + sigma * Real.sqrt T * x := by ring
  rw [h]

lemma payoff_list_eq_spec (S : List ℝ) (K r T : ℝ) :
    (S.map (fun s => max (s - K) 0)).map (fun p => Real.exp (-r * T) * p) =
      S.map (fun s => specDiscountedPayoff K r T s) := by
  unfold specDiscountedPayoff
  rw [List.map_map]
  congr 1
  funext s
  rw [neg_mul]
  rfl

lemma control_list_eq_spec (S : List ℝ) (r T : ℝ) :
    S.map (fun s => Real.exp (-r * T) * s) =
      S.map (fun s => specControl r T s) := by
  unfold specControl
  congr 1
  funext s
  rw [neg_mul]

lemma discounted_payoff_list (draws : List ℝ) (S0 K T r sigma : ℝ) :
    ((terminal_stockprice draws S0 T r sigma).map
        (fun s => max (s - K) 0)).map (fun p => Real.exp (-r * T) * p) =
      draws.map (fun x =>
        specDiscountedPayoff K r T (specTerminalPrice S0 T r sigma x)) := by
  rw [payoff_list_eq_spec, terminal_eq_spec, List.map_map]
  rfl

lemma one_sub_half_eps (eps : ℝ) : (1.0 : ℝ) - eps * 0.5 = 1 - eps / 2 := by
  norm_num
  ring

/-! ### Claim theorems -/

/-- C1: for every sample of standard-normal draws, the plain Monte Carlo
estimator `bs_call_mc` returns the mean of the discounted payoffs
`exp(-r*T)*max(S_i - K, 0)`, the unbiased sample standard deviation divided
by `sqrt(n)` as standard error, and the confidence bounds
`price ± z_{1-eps/2} * stderr`, where
`S_i = S0 * exp((r - sigma^2/2)*T + sigma*sqrt(T)*x_i)`. -/
theorem C1_bs_call_mc_spec (draws : List ℝ) (S0 K T r sigma eps : ℝ) :
    bs_call_mc draws S0 K T r sigma eps =
      specPlainStats
        (draws.map (fun x =>
          specDiscountedPayoff K r T (specTerminalPrice S0 T r sigma x)))
        draws.length eps := by
  simp only [bs_call_mc, specPlainStats]
  rw [discounted_payoff_list, one_sub_half_eps]

/-- C2: for every sample of terminal prices with discounted control
`X_i = exp(-r*T)*S_i` and discounted payoffs `Y_i`, the control-variate
estimator computes `b* = Cov(X,Y)/Var(X)` (unbiased sample versions over the
same observations), forms `Z_i = Y_i - b* * (X_i - S0)`, returns price,
stderr and confidence interval computed from `Z` exactly as the plain
estimator does from its payoff set, and returns
`rho_squared = Cov(X,Y)^2 / (Var(X)*Var(Y))`. -/
theorem C2_bs_call_cv_spec (draws : List ℝ) (S0 K T r sigma eps : ℝ) :
    bs_call_cv draws S0 K T r sigma eps =
      ((specPlainStats
          (specAdjusted
            ((terminal_stockprice draws S0 T r sigma).map
              (fun s => specControl r T s))
            ((terminal_stockprice draws S0 T r sigma).map
              (fun s => specDiscountedPayoff K r T s)) S0)
          draws.length eps).1,
        (specPlainStats
          (specAdjusted
            ((terminal_stockprice draws S0 T r sigma).map
              (fun s => specControl r T s))
            ((terminal_stockprice draws S0 T r sigma).map
              (fun s => specDiscountedPayoff K r T s)) S0)
          draws.length eps).2.1,
        (specPlainStats
          (specAdjusted
            ((terminal_stockprice draws S0 T r sigma).map
              (fun s => specControl r T s))
            ((terminal_stockprice draws S0 T r sigma).map
              (fun s => specDiscountedPayoff K r T s)) S0)
          draws.length eps).2.2.1,
        (specPlainStats
          (specAdjusted
            ((terminal_stockprice draws S0 T r sigma).map
              (fun s => specControl r T s))
            ((terminal_stockprice draws S0 T r sigma).map
              (fun s => specDiscountedPayoff K r T s)) S0)
          draws.length eps).2.2.2,
        scov ((terminal_stockprice draws S0 T r sigma).map
            (fun s => specControl r T s))
          ((terminal_stockprice draws S0 T r sigma).map
            (fun s => specDiscountedPayoff K r T s)) ^ 2 /
          (svar ((terminal_stockprice draws S0 T r sigma).map
              (fun s => specControl r T s)) *
            svar ((terminal_stockprice draws S0 T r sigma).map
              (fun s => specDiscountedPayoff K r T s)))) := by
  simp only [bs_call_cv, specPlainStats, specAdjusted, specBstar]
  rw [payoff_list_eq_spec, control_list_eq_spec, one_sub_half_eps]

/-- C3: for every `half_n` standard-normal draws, the antithetic estimator
builds two index-aligned terminal-price sequences from the draws and their
negations by the same lognormal formula, computes the unbiased paired
covariance of the two discounted-payoff sequences, computes price, stderr
and confidence interval from the concatenated sample of size `2*half_n`
exactly as the plain estimator, and returns the diagnostic
`possible_reduction = thecov / (2*half_n)`. -/
theorem C3_bs_call_av_spec (draws : List ℝ) (S0 K T r sigma eps : ℝ) :
    bs_call_av draws S0 K T r sigma eps =
      ((specPlainStats
          ((draws.map (fun x =>
              specDiscountedPayoff K r T (specTerminalPrice S0 T r sigma x))) ++
            ((draws.map (fun x => -x)).map (fun x =>
              specDiscountedPayoff K r T (specTerminalPrice S0 T r sigma x))))
          (2 * draws.length) eps).1,
        (specPlainStats
          ((draws.map (fun x =>
              specDiscountedPayoff K r T (specTerminalPrice S0 T r sigma x))) ++
            ((draws.map (fun x => -x)).map (fun x =>
              specDiscountedPayoff K r T (specTerminalPrice S0 T r sigma x))))
          (2 * draws.length) eps).2.1,
        (specPlainStats
          ((draws.map (fun x =>
              specDiscountedPayoff K r T (specTerminalPrice S0 T r sigma x))) ++
            ((draws.map (fun x => -x)).map (fun x =>
              specDiscountedPayoff K r T (specTerminalPrice S0 T r sigma x))))
          (2 * draws.length) eps).2.2.1,
        (specPlainStats
          ((draws.map (fun x =>
              specDiscountedPayoff K r T (specTerminalPrice S0 T r sigma x))) ++
            ((draws.map (fun x => -x)).map (fun x =>
              specDiscountedPayoff K r T (specTerminalPrice S0 T r sigma x))))
          (2 * draws.length) eps).2.2.2,
        scov
          (draws.map (fun x =>
            specDiscountedPayoff K r T (specTerminalPrice S0 T r sigma x)))
          ((draws.map (fun x => -x)).map (fun x =>
            specDiscountedPayoff K r T (specTerminalPrice S0 T r sigma x))) /
          (2 * (draws.length : ℝ))) := by
  have h1 := discounted_payoff_list draws S0 K T r sigma
  have h2 := discounted_payoff_list (draws.map (fun x => -x)) S0 K T r sigma
  simp only [bs_call_av, terminal_stockprice_av, specPlainStats]
  simp only [terminal_stockprice] at h1 h2
  rw [h1, h2, one_sub_half_eps]
  have hc : ((2 * draws.length : ℕ) : ℝ) = 2 * (draws.length : ℝ) := by
    push_cast
    ring
  rw [hc]

lemma ci_shape (p a se : ℝ) (ha : 0 ≤ a) (hse : 0 ≤ se) :
    p - a * se ≤ p ∧ p ≤ p + a * se ∧ 0 ≤ se ∧
      p - (p - a * se) = p + a * se - p := by
  have h : 0 ≤ a * se := mul_nonneg ha hse
  exact ⟨by linarith, by linarith, hse, by ring⟩

/-- C4: for every estimator (plain, control-variate, antithetic) and every
input with `0 < epsilon < 1` and at least two observations, the returned
result satisfies `ci_low ≤ price ≤ ci_high` and `stderr ≥ 0`, and the
confidence interval is symmetric around the price. -/
theorem C4_ci_invariants (S0 K T r sigma eps : ℝ) (draws drawsAv : List ℝ)
    (heps0 : 0 < eps) (heps1 : eps < 1)
    (hn : 2 ≤ draws.length) (hm : 1 ≤ drawsAv.length) :
    ((bs_call_mc draws S0 K T r sigma eps).2.2.1 ≤
        (bs_call_mc draws S0 K T r sigma eps).1 ∧
      (bs_call_mc draws S0 K T r sigma eps).1 ≤
        (bs_call_mc draws S0 K T r sigma eps).2.2.2 ∧
      0 ≤ (bs_call_mc draws S0 K T r sigma eps).2.1 ∧
      (bs_call_mc draws S0 K T r sigma eps).1 -
          (bs_call_mc draws S0 K T r sigma eps).2.2.1 =
        (bs_call_mc draws S0 K T r sigma eps).2.2.2 -
          (bs_call_mc draws S0 K T r sigma eps).1) ∧
    ((bs_call_cv draws S0 K T r sigma eps).2.2.1 ≤
        (bs_call_cv draws S0 K T r sigma eps).1 ∧
      (bs_call_cv draws S0 K T r sigma eps).1 ≤
        (bs_call_cv draws S0 K T r sigma eps).2.2.2.1 ∧
      0 ≤ (bs_call_cv draws S0 K T r sigma eps).2.1 ∧
      (bs_call_cv draws S0 K T r sigma eps).1 -
          (bs_call_cv draws S0 K T r sigma eps).2.2.1 =
        (bs_call_cv draws S0 K T r sigma eps).2.2.2.1 -
          (bs_call_cv draws S0 K T r sigma eps).1) ∧
    ((bs_call_av drawsAv S0 K T r sigma eps).2.2.1 ≤
        (bs_call_av drawsAv S0 K T r sigma eps).1 ∧
      (bs_call_av drawsAv S0 K T r sigma eps).1 ≤
        (bs_call_av drawsAv S0 K T r sigma eps).2.2.2.1 ∧
      0 ≤ (bs_call_av drawsAv S0 K T r sigma eps).2.1 ∧
      (bs_call_av drawsAv S0 K T r sigma eps).1 -
          (bs_call_av drawsAv S0 K T r sigma eps).2.2.1 =
        (bs_call_av drawsAv S0 K T r sigma eps).2.2.2.1 -
          (bs_call_av drawsAv S0 K T r sigma eps).1) := by
  have ha : 0 ≤ normPpf (1.0 - eps * 0.5) := by
    apply normPpf_nonneg
    rw [one_sub_half_eps]
    linarith
  refine ⟨?_, ?_, ?_⟩
  · simp only [bs_call_mc]
    exact ci_shape _ _ _ ha (div_nonneg (Real.sqrt_nonneg _) (Real.sqrt_nonneg _))
  · simp only [bs_call_cv]
    exact ci_shape _ _ _ ha (div_nonneg (Real.sqrt_nonneg _) (Real.sqrt_nonneg _))
  · simp only [bs_call_av]
    exact ci_shape _ _ _ ha (div_nonneg (Real.sqrt_nonneg _) (Real.sqrt_nonneg _))

/-- Witness for C4 at `S0=1, K=0, T=0, r=0, sigma=0, eps=1/2`,
`draws = [0,0]`, `drawsAv = [0]`. -/
theorem C4_ci_invariants_witness :
    ((0 : ℝ) < 1 / 2 ∧ (1 / 2 : ℝ) < 1 ∧
      2 ≤ ([0, 0] : List ℝ).length ∧ 1 ≤ ([0] : List ℝ).length) ∧
    (((bs_call_mc [0, 0] 1 0 0 0 0 (1 / 2)).2.2.1 ≤
        (bs_call_mc [0, 0] 1 0 0 0 0 (1 / 2)).1 ∧
      (bs_call_mc [0, 0] 1 0 0 0 0 (1 / 2)).1 ≤
        (bs_call_mc [0, 0] 1 0 0 0 0 (1 / 2)).2.2.2 ∧
      0 ≤ (bs_call_mc [0, 0] 1 0 0 0 0 (1 / 2)).2.1 ∧
      (bs_call_mc [0, 0] 1 0 0 0 0 (1 / 2)).1 -
          (bs_call_mc [0, 0] 1 0 0 0 0 (1 / 2)).2.2.1 =
        (bs_call_mc [0, 0] 1 0 0 0 0 (1 / 2)).2.2.2 -
          (bs_call_mc [0, 0] 1 0 0 0 0 (1 / 2)).1) ∧
    ((bs_call_cv [0, 0] 1 0 0 0 0 (1 / 2)).2.2.1 ≤
        (bs_call_cv [0, 0] 1 0 0 0 0 (1 / 2)).1 ∧
      (bs_call_cv [0, 0] 1 0 0 0 0 (1 / 2)).1 ≤
        (bs_call_cv [0, 0] 1 0 0 0 0 (1 / 2)).2.2.2.1 ∧
      0 ≤ (bs_call_cv [0, 0] 1 0 0 0 0 (1 / 2)).2.1 ∧
      (bs_call_cv [0, 0] 1 0 0 0 0 (1 / 2)).1 -
          (bs_call_cv [0, 0] 1 0 0 0 0 (1 / 2)).2.2.1 =
        (bs_call_cv [0, 0] 1 0 0 0 0 (1 / 2)).2.2.2.1 -
          (bs_call_cv [0, 0] 1 0 0 0 0 (1 / 2)).1) ∧
    ((bs_call_av [0] 1 0 0 0 0 (1 / 2)).2.2.1 ≤
        (bs_call_av [0] 1 0 0 0 0 (1 / 2)).1 ∧
      (bs_call_av [0] 1 0 0 0 0 (1 / 2)).1 ≤
        (bs_call_av [0] 1 0 0 0 0 (1 / 2)).2.2.2.1 ∧
      0 ≤ (bs_call_av [0] 1 0 0 0 0 (1 / 2)).2.1 ∧
      (bs_call_av [0] 1 0 0 0 0 (1 / 2)).1 -
          (bs_call_av [0] 1 0 0 0 0 (1 / 2)).2.2.1 =
        (bs_call_av [0] 1 0 0 0 0 (1 / 2)).2.2.2.1 -
          (bs_call_av [0] 1 0 0 0 0 (1 / 2)).1)) :=
  ⟨⟨by norm_num, by norm_num, by simp, by simp⟩,
    C4_ci_invariants 1 0 0 0 0 (1 / 2) [0, 0] [0]
      (by norm_num) (by norm_num) (by simp) (by simp)⟩

lemma zipWith_left_id (Y X : List ℝ) (h : Y.length ≤ X.length) :
    List.zipWith (fun y _ => y) Y X = Y := by
  induction Y generalizing X with
  | nil => simp
  | cons y t ih =>
      cases X with
      | nil => simp at h
      | cons x u =>
          simp only [List.zipWith_cons_cons]
          rw [ih u (by simpa using h)]

/-- C5 counterexample: at `draws = [0,0]`, `S0=1`, `K=0`, `T=0`, `r=0`,
`sigma=0`, `eps=1/2`, the sampled control has zero sample variance, yet
`bs_call_cv` returns the full result `(1, 0, 1, 1, 0)` instead of failing:
the code contains no degeneracy check. -/
theorem C5_counterexample :
    svar ((terminal_stockprice [0, 0] 1 0 0 0).map
        (fun s => Real.exp (-(0 : ℝ) * 0) * s)) = 0 ∧
      bs_call_cv [0, 0] 1 0 0 0 0 (1 / 2) = (1, 0, 1, 1, 0) := by
  constructor
  · norm_num [terminal_stockprice, svar, mean, Real.exp_zero]
  · norm_num [bs_call_cv, terminal_stockprice, svar, scov, mean, sstd,
      Real.exp_zero, Real.sqrt_zero]

/-- C5 amended: when the sampled control has zero sample variance, the
control-variate estimator performs no check and still returns a full
result; under the real-division convention `x/0 = 0` (numpy instead emits
`inf`/`NaN` warnings), `b*` and `rho_squared` become `0` and the result
coincides with the plain Monte Carlo statistics of the discounted payoffs
together with diagnostic `0`. -/
theorem C5_degenerate_control_returns_result (draws : List ℝ)
    (S0 K T r sigma eps : ℝ)
    (hvar : svar ((terminal_stockprice draws S0 T r sigma).map
      (fun s => Real.exp (-r * T) * s)) = 0) :
    bs_call_cv draws S0 K T r sigma eps =
      ((bs_call_mc draws S0 K T r sigma eps).1,
        (bs_call_mc draws S0 K T r sigma eps).2.1,
        (bs_call_mc draws S0 K T r sigma eps).2.2.1,
        (bs_call_mc draws S0 K T r sigma eps).2.2.2, 0) := by
  simp only [bs_call_cv, bs_call_mc]
  rw [hvar]
  simp only [div_zero, zero_mul, sub_zero, mul_zero, zero_div]
  rw [zipWith_left_id _ _ (by simp)]

/-- Witness for C5 at the degenerate input `sigma = 0`. -/
theorem C5_degenerate_control_witness :
    svar ((terminal_stockprice [0, 0] 1 0 0 0).map
        (fun s => Real.exp (-(0 : ℝ) * 0) * s)) = 0 ∧
      bs_call_cv [0, 0] 1 0 0 0 0 (1 / 2) =
        ((bs_call_mc [0, 0] 1 0 0 0 0 (1 / 2)).1,
          (bs_call_mc [0, 0] 1 0 0 0 0 (1 / 2)).2.1,
          (bs_call_mc [0, 0] 1 0 0 0 0 (1 / 2)).2.2.1,
          (bs_call_mc [0, 0] 1 0 0 0 0 (1 / 2)).2.2.2, 0) := by
  have hvar : svar ((terminal_stockprice [0, 0] 1 0 0 0).map
      (fun s => Real.exp (-(0 : ℝ) * 0) * s)) = 0 := by
    norm_num [terminal_stockprice, svar, mean, Real.exp_zero]
  exact ⟨hvar, C5_degenerate_control_returns_result [0, 0] 1 0 0 0 0 (1 / 2) hvar⟩

/-- C6 counterexample: at sample size `n = 1 < 2` the plain Monte Carlo
estimator does not fail; it returns the full result `(1, 0, 1, 1)` (the
`ddof=1` variance of one observation divides zero by zero, which is `0`
under the real-division convention; numpy emits a `NaN`). -/
theorem C6_counterexample :
    ([(0 : ℝ)] : List ℝ).length < 2 ∧
      bs_call_mc [0] 1 0 0 0 0 (1 / 2) = (1, 0, 1, 1) := by
  constructor
  · simp
  · norm_num [bs_call_mc, terminal_stockprice, svar, mean, sstd,
      Real.exp_zero, Real.sqrt_zero]

/-- C6 amended: for sample sizes `n < 2` the plain Monte Carlo estimator
performs no sample-size check and returns a full result: with `n = 0` it
returns `(0, 0, 0, 0)` and with `n = 1` it returns the single discounted
payoff as price with zero standard error and a collapsed confidence
interval (numpy would propagate `NaN` through the `ddof=1` variance; the
real-division embedding yields `0`). -/
theorem C6_small_samples_return_result (x S0 K T r sigma eps : ℝ) :
    bs_call_mc [] S0 K T r sigma eps = (0, 0, 0, 0) ∧
      bs_call_mc [x] S0 K T r sigma eps =
        (Real.exp (-r * T) *
            max (S0 * Real.exp ((r - 0.5 * sigma ^ 2) * T +
              sigma * Real.sqrt T * x) - K) 0, 0,
          Real.exp (-r * T) *
            max (S0 * Real.exp ((r - 0.5 * sigma ^ 2) * T +
              sigma * Real.sqrt T * x) - K) 0,
          Real.exp (-r * T) *
            max (S0 * Real.exp ((r - 0.5 * sigma ^ 2) * T +
              sigma * Real.sqrt T * x) - K) 0) := by
  constructor
  · norm_num [bs_call_mc, terminal_stockprice, svar, mean, sstd,
      Real.sqrt_zero]
  · norm_num [bs_call_mc, terminal_stockprice, svar, mean, sstd,
      Real.sqrt_zero, Real.sqrt_one]

/-- C7 counterexample: requesting `n = 0` draws does not fail: the plain
sampler returns the empty sample and the antithetic sampler returns three
empty samples; the code performs no validation of the draw count. -/
theorem C7_counterexample :
    terminal_stockprice [] 1 1 (1 / 2) 1 = [] ∧
      terminal_stockprice_av [] 1 1 (1 / 2) 1 = ([], [], []) := by
  constructor
  · simp [terminal_stockprice]
  · simp [terminal_stockprice_av]

/-- C7 amended: for a requested draw count of `0`, sampling succeeds with
empty output for all parameters: neither `terminal_stockprice` nor
`terminal_stockprice_av` contains any draw-count check (`numpy` itself
raises only for negative sizes, which are not produced by this notebook). -/
theorem C7_zero_draws_succeed (S0 T r sigma : ℝ) :
    terminal_stockprice [] S0 T r sigma = [] ∧
      terminal_stockprice_av [] S0 T r sigma = ([], [], []) := by
  constructor
  · simp [terminal_stockprice]
  · simp [terminal_stockprice_av]

/-- C8: for every strike in the sensitivity sweep over a fixed sample of
terminal prices, the computed `rho_squared` (the squared sample correlation
between the discounted stock control and the discounted payoff) lies in
`[0, 1]`. -/
theorem C8_sweep_rho_squared_in_unit_interval (mystockprice : List ℝ)
    (r T k : ℝ) :
    0 ≤ sweepRhoSquared mystockprice r T k ∧
      sweepRhoSquared mystockprice r T k ≤ 1 := by
  refine ⟨sq_nonneg _, ?_⟩
  simp only [sweepRhoSquared, sweepRho, sstd]
  set xs := mystockprice.map (fun s => Real.exp (-r * T) * s) with hxs
  set ys := (mystockprice.map (fun s => max (s - k) 0)).map
    (fun p => Real.exp (-r * T) * p) with hys
  have hlen : xs.length = ys.length := by simp [hxs, hys]
  have hcs := scov_sq_le_svar_mul_svar xs ys hlen
  have ha := svar_nonneg xs
  have hb := svar_nonneg ys
  rw [div_pow, mul_pow, Real.sq_sqrt ha, Real.sq_sqrt hb]
  rcases eq_or_lt_of_le (mul_nonneg ha hb) with h0 | hpos
  · have hc : scov xs ys ^ 2 = 0 :=
      le_antisymm (h0 ▸ hcs) (sq_nonneg _)
    rw [hc, zero_div]
    norm_num
  · rw [div_le_one hpos]
    exact hcs

/-- C9: every estimator is deterministic in its inputs: two runs with
identical parameters against freshly re-seeded identical random streams
(modelled as equal draw sequences) produce identical results, diagnostics
included. -/
theorem C9_deterministic (S0 K T r sigma eps : ℝ) (d1 d2 : List ℝ)
    (h : d1 = d2) :
    bs_call_mc d1 S0 K T r sigma eps = bs_call_mc d2 S0 K T r sigma eps ∧
      bs_call_cv d1 S0 K T r sigma eps = bs_call_cv d2 S0 K T r sigma eps ∧
      bs_call_av d1 S0 K T r sigma eps = bs_call_av d2 S0 K T r sigma eps := by
  subst h
  exact ⟨rfl, rfl, rfl⟩

/-- Witness for C9 with the stream `[0]` re-seeded identically. -/
theorem C9_deterministic_witness :
    ([(0 : ℝ)] : List ℝ) = [0] ∧
      (bs_call_mc [0] 1 1 1 0 1 (1 / 2) = bs_call_mc [0] 1 1 1 0 1 (1 / 2) ∧
        bs_call_cv [0] 1 1 1 0 1 (1 / 2) = bs_call_cv [0] 1 1 1 0 1 (1 / 2) ∧
        bs_call_av [0] 1 1 1 0 1 (1 / 2) =
          bs_call_av [0] 1 1 1 0 1 (1 / 2)) :=
  ⟨rfl, C9_deterministic 1 1 1 0 1 (1 / 2) [0] [0] rfl⟩

/-- C10: for `S0 > 0`, every terminal price produced by the plain sampler
and every element of both paired sequences and of the concatenated sequence
produced by the antithetic sampler is strictly positive. -/
theorem C10_terminal_prices_positive (draws : List ℝ) (S0 T r sigma : ℝ)
    (hS0 : 0 < S0) :
    (∀ s ∈ terminal_stockprice draws S0 T r sigma, 0 < s) ∧
      (∀ s ∈ (terminal_stockprice_av draws S0 T r sigma).1, 0 < s) ∧
      (∀ s ∈ (terminal_stockprice_av draws S0 T r sigma).2.1, 0 < s) ∧
      (∀ s ∈ (terminal_stockprice_av draws S0 T r sigma).2.2, 0 < s) := by
  have key : ∀ l : List ℝ, ∀ s ∈ l.map (fun x =>
      S0 * Real.exp ((r - 0.5 * sigma ^ 2) * T + sigma * Real.sqrt T * x)),
      0 < s := by
    intro l s hs
    obtain ⟨x, _, rfl⟩ := List.mem_map.mp hs
    exact mul_pos hS0 (Real.exp_pos _)
  refine ⟨?_, ?_, ?_, ?_⟩
  · simp only [terminal_stockprice]
    exact key draws
  · simp only [terminal_stockprice_av]
    exact key draws
  · simp only [terminal_stockprice_av]
    exact key _
  · simp only [terminal_stockprice_av]
    intro s hs
    rcases List.mem_append.mp hs with h | h
    · exact key draws s h
    · exact key _ s h

/-- Witness for C10 at `S0 = 1`, `draws = [0]`. -/
theorem C10_terminal_prices_positive_witness :
    (0 : ℝ) < 1 ∧
      ((∀ s ∈ terminal_stockprice [0] 1 0 0 0, 0 < s) ∧
        (∀ s ∈ (terminal_stockprice_av [0] 1 0 0 0).1, 0 < s) ∧
        (∀ s ∈ (terminal_stockprice_av [0] 1 0 0 0).2.1, 0 < s) ∧
        (∀ s ∈ (terminal_stockprice_av [0] 1 0 0 0).2.2, 0 < s)) :=
  ⟨by norm_num, C10_terminal_prices_positive [0] 1 0 0 0 (by norm_num)⟩

end OptionPricing
